import Mathlib

/-!
Shallow embedding of the `sophia_sparql_client` crate (files `src/lib.rs` and
`src/results.rs`): the SPARQL results data model, the serde-driven JSON
decoding of result documents, the adaptation of wire terms to generic RDF
terms, the draining bindings iterator, and the content-type dispatch of the
protocol client.
-/

namespace SophiaSparqlClient

/-! ## JSON values

Model of `serde_json` values as fed to the serde derive machinery.
Objects carry their fields in document order; as in `serde_json`, a
repeated key makes the later occurrence win (see `getField`). -/

inductive Json where
  | null : Json
  | bool (b : Bool) : Json
  | num (n : Int) : Json
  | str (s : String) : Json
  | arr (items : List Json) : Json
  | obj (fields : List (String × Json)) : Json

/-- Field access on a JSON object, later duplicate keys winning, as in the
`serde_json` map that serde buffers an object into. -/
def getField : List (String × Json) → String → Option Json
  | [], _ => none
  | (k, v) :: rest, key =>
    match getField rest key with
    | some v2 => some v2
    | none => if k = key then some v else none

/-- Decode a JSON value that must be a string (`Box<str>` on the Rust side). -/
def asString : Option Json → Option String
  | some (.str s) => some s
  | _ => none

/-- Decode a JSON value that must be a boolean (`bool` on the Rust side). -/
def asBool : Option Json → Option Bool
  | some (.bool b) => some b
  | _ => none

/-- Decode a JSON array of strings (`Vec<Box<str>>` on the Rust side). -/
def decodeStringList : Json → Option (List String)
  | .arr items => items.mapM fun j =>
      match j with
      | .str s => some s
      | _ => none
  | _ => none

/-! ## Wire data model (results.rs lines 8-72) -/

/-- Embeds `BooleanHead` (results.rs lines 28-32): field `link` with
`#[serde(default)]`. -/
structure BooleanHead where
  link : List String
deriving Repr, DecidableEq

/-- Embeds `BindingsHead` (results.rs lines 34-39): required field `vars`,
field `link` with `#[serde(default)]`. -/
structure BindingsHead where
  vars : List String
  link : List String
deriving Repr, DecidableEq

/-- Embeds the `#[serde(untagged)]` enum `Literal` (results.rs lines 57-72),
in declaration order: `Datatype`, `Lang`, `Simple`. -/
inductive Literal where
  | Datatype (value : String) (datatype : String) : Literal
  | Lang (value : String) (lang : String) : Literal
  | Simple (value : String) : Literal
deriving Repr, DecidableEq

/-- Embeds the `#[serde(tag = "type")]` enum `Term` (results.rs lines 46-55). -/
inductive Term where
  | Bnode (value : String) : Term
  | Literal (lit : SophiaSparqlClient.Literal) : Term
  | Uri (value : String) : Term
deriving Repr, DecidableEq

/-- Embeds `Results` (results.rs lines 41-44): `bindings` is a vector of
`HashMap<Box<str>, Term>`; a hash map is modelled as an association list
with pairwise distinct keys (the invariant every `HashMap` maintains,
established here by `decodeRow` and defined as `nodupKeys`). -/
structure Results where
  bindings : List (List (String × Term))
deriving Repr, DecidableEq

/-- Embeds `BindingsDocument` (results.rs lines 22-26). -/
structure BindingsDocument where
  head : BindingsHead
  results : Results
deriving Repr, DecidableEq

/-- Embeds the `#[serde(untagged)]` enum `ResultsDocument` (results.rs
lines 8-19), in declaration order: `Boolean`, then `Bindings` (whose single
field is `#[serde(flatten)]`-ed, so `head` and `results` live at top level). -/
inductive ResultsDocument where
  | Boolean (head : BooleanHead) (boolean : Bool) : ResultsDocument
  | Bindings (doc : BindingsDocument) : ResultsDocument
deriving Repr, DecidableEq

/-- The `HashMap` invariant: keys are pairwise distinct. -/
def nodupKeys (hm : List (String × Term)) : Prop :=
  (hm.map Prod.fst).Nodup

instance (hm : List (String × Term)) : Decidable (nodupKeys hm) := by
  unfold nodupKeys
  infer_instance

/-! ## JSON decoding of the wire model (serde derive semantics) -/

/-- Decode `BooleanHead`: any JSON object; `link`, when present, must be an
array of strings, and defaults to `[]` when absent (`#[serde(default)]`). -/
def decodeBooleanHead : Json → Option BooleanHead
  | .obj fields =>
    match getField fields "link" with
    | none => some ⟨[]⟩
    | some lj => (decodeStringList lj).map fun l => ⟨l⟩
  | _ => none

/-- Decode `BindingsHead`: requires `vars` (array of strings); `link` defaults
to `[]` when absent. -/
def decodeBindingsHead : Json → Option BindingsHead
  | .obj fields =>
    match asOptList (getField fields "vars") with
    | none => none
    | some vs =>
      match getField fields "link" with
      | none => some ⟨vs, []⟩
      | some lj => (decodeStringList lj).map fun l => ⟨vs, l⟩
  | _ => none
where
  asOptList (oj : Option Json) : Option (List String) :=
    match oj with
    | none => none
    | some j => decodeStringList j

/-- Decode the untagged `Literal` from the fields of a term object, trying
the variants in declaration order exactly as serde does: `Datatype` needs
string fields `value` and `datatype` (other fields ignored); then `Lang`
needs string fields `value` and `xml:lang`; then `Simple` needs a string
field `value`. -/
def decodeLiteral (fields : List (String × Json)) : Option Literal :=
  match asString (getField fields "value"), asString (getField fields "datatype") with
  | some v, some dt => some (.Datatype v dt)
  | _, _ =>
    match asString (getField fields "value"), asString (getField fields "xml:lang") with
    | some v, some l => some (.Lang v l)
    | _, _ =>
      match asString (getField fields "value") with
      | some v => some (.Simple v)
      | none => none

/-- Decode the internally tagged `Term`: the `type` field selects the variant
(`uri`, `bnode` or `literal`); any other tag, or a non-object, fails. -/
def decodeTerm : Json → Option Term
  | .obj fields =>
    match getField fields "type" with
    | some (.str "bnode") => (asString (getField fields "value")).map .Bnode
    | some (.str "literal") => (decodeLiteral fields).map .Literal
    | some (.str "uri") => (asString (getField fields "value")).map .Uri
    | _ => none
  | _ => none

/-- Insertion with the `HashMap` replace-on-collision behaviour. -/
def insertKV (k : String) (t : Term) : List (String × Term) → List (String × Term)
  | [] => [(k, t)]
  | (k2, t2) :: rest =>
    if k2 = k then (k, t) :: rest else (k2, t2) :: insertKV k t rest

/-- Decode one binding row, a JSON object read into
`HashMap<Box<str>, Term>`: every field value must decode as a `Term`, and a
repeated key overwrites the earlier entry. -/
def decodeRow : Json → Option (List (String × Term))
  | .obj fields =>
    fields.foldlM (fun acc kv =>
      (decodeTerm kv.2).map fun t => insertKV kv.1 t acc) []
  | _ => none

/-- Decode `Results`: requires a `bindings` field holding an array of rows. -/
def decodeResults : Json → Option Results
  | .obj fields =>
    match getField fields "bindings" with
    | some (.arr items) => (items.mapM decodeRow).map fun rows => ⟨rows⟩
    | _ => none
  | _ => none

/-- Try the `Boolean` variant of the untagged `ResultsDocument`: struct fields
`head` (a `BooleanHead`) and `boolean` (a JSON boolean), unknown fields
ignored. -/
def decodeBooleanVariant : Json → Option ResultsDocument
  | .obj fields =>
    (getField fields "head").bind fun hj =>
      (decodeBooleanHead hj).bind fun h =>
        (asBool (getField fields "boolean")).map fun b => .Boolean h b
  | _ => none

/-- Try the `Bindings` variant of the untagged `ResultsDocument`: the
flattened `BindingsDocument` needs `head` (a `BindingsHead`) and `results`
at top level, unknown fields ignored. -/
def decodeBindingsVariant : Json → Option ResultsDocument
  | .obj fields =>
    (getField fields "head").bind fun hj =>
      (decodeBindingsHead hj).bind fun hd =>
        (getField fields "results").bind fun rj =>
          (decodeResults rj).map fun rs => .Bindings ⟨hd, rs⟩
  | _ => none

/-- Decode `ResultsDocument` with the serde untagged strategy: try the
variants in declaration order, `Boolean` first, then `Bindings`; if neither
matches the decode fails. -/
def decodeResultsDocument (j : Json) : Option ResultsDocument :=
  match decodeBooleanVariant j with
  | some d => some d
  | none => decodeBindingsVariant j

/-! ## Generic RDF terms and term adaptation (results.rs lines 74-89)

The generic term type `sophia::term::BoxTerm` and its constructors come from
the external sophia toolkit, which the spec places out of scope. -/

/-- Modelled from the spec: the generic RDF term provided by the external
toolkit (`sophia::term::BoxTerm`), with variants IRI, blank node, and a
literal carrying a lexical form plus either a datatype IRI or a language
tag. -/
inductive BoxTerm where
  | Iri (iri : String) : BoxTerm
  | BlankNode (id : String) : BoxTerm
  | LiteralDT (txt : String) (dt : String) : BoxTerm
  | LiteralLang (txt : String) (lang : String) : BoxTerm
deriving Repr, DecidableEq

/-- Modelled from the spec: the syntactic validity checks performed by the
external toolkit constructors `BoxTerm::new_iri`, `BoxTerm::new_bnode` and
`BoxTerm::new_literal_lang` (term construction "fails if `value` is not a
syntactically valid IRI", "fails if the label is invalid", "fails if the tag
is malformed"). The embedding is parametric in these predicates. -/
structure Validity where
  validIri : String → Bool
  validBnodeId : String → Bool
  validLangTag : String → Bool

/-- The validity instance accepting every string (used to evaluate the
development on concrete well-formed inputs). -/
def allValid : Validity := ⟨fun _ => true, fun _ => true, fun _ => true⟩

/-- Embeds the error enum `Error` (lib.rs lines 178-208). The decode failure
of `resp.into_json` surfaces as the `Io` variant (serde errors are wrapped in
`std::io::Error` by ureq); each variant keeps only its message, the payload
detail being irrelevant here. -/
inductive Error where
  | Io (msg : String) : Error
  | Http (msg : String) : Error
  | Unsupported (msg : String) : Error
  | TermErr (msg : String) : Error
  | RioTurtle (msg : String) : Error
  | RioXml (msg : String) : Error
deriving Repr, DecidableEq

/-- The IRI of `xsd:string` (`sophia::ns::xsd::string`). -/
def xsdString : String := "http://www.w3.org/2001/XMLSchema#string"

/-- Embeds `impl TryFrom<Term> for BoxTerm` (results.rs lines 74-89):
`Bnode` goes through `new_bnode`; `Literal(Simple)` through
`new_literal_dt(value, xsd::string)` (always succeeds: the datatype is a
fixed valid IRI and any lexical form is accepted); `Literal(Datatype)`
through `new_iri(datatype)` then `new_literal_dt`; `Literal(Lang)` through
`new_literal_lang`; `Uri` through `new_iri`. -/
def tryFrom (V : Validity) : Term → Except Error BoxTerm
  | .Bnode value =>
    if V.validBnodeId value then .ok (.BlankNode value)
    else .error (.TermErr value)
  | .Literal (.Simple value) => .ok (.LiteralDT value xsdString)
  | .Literal (.Datatype value datatype) =>
    if V.validIri datatype then .ok (.LiteralDT value datatype)
    else .error (.TermErr datatype)
  | .Literal (.Lang value lang) =>
    if V.validLangTag lang then .ok (.LiteralLang value lang)
    else .error (.TermErr lang)
  | .Uri value =>
    if V.validIri value then .ok (.Iri value)
    else .error (.TermErr value)

/-! ## The draining bindings iterator (results.rs lines 91-104, lib.rs
lines 166-176) -/

/-- Embeds `HashMap::remove`: the removed value (if the key is present) and
the remaining map. On an association list with `nodupKeys` this removes
exactly the entry for `k`. -/
def removeKey (k : String) : List (String × Term) → Option Term × List (String × Term)
  | [] => (none, [])
  | (k2, t2) :: rest =>
    if k2 = k then (some t2, rest)
    else
      let r := removeKey k rest
      (r.1, (k2, t2) :: r.2)

/-- Embeds the loop of `BindingsDocument::pop_binding` (results.rs lines
95-102): for each variable of the head in order, `hm.remove(key)` yields
either nothing (push `None`) or a wire term, adapted through `TryFrom`
(a failure aborts the whole row via `?`). -/
def popBindingLoop (V : Validity) : List String → List (String × Term) →
    Except Error (List (Option BoxTerm))
  | [], _ => .ok []
  | key :: rest, hm =>
    match removeKey key hm with
    | (none, hm2) => (popBindingLoop V rest hm2).map fun v => none :: v
    | (some t, hm2) =>
      match tryFrom V t with
      | .error e => .error e
      | .ok bt => (popBindingLoop V rest hm2).map fun v => some bt :: v

/-- Embeds `Iterator::next` for `Bindings` (lib.rs lines 169-175): if no row
is left, end of iteration; otherwise the first row is drained from the
document (`drain(..1)` in `pop_binding`, results.rs line 94) and decoded
against the head, the item being `Ok(row)` or a propagated error. -/
def next (V : Validity) (doc : BindingsDocument) :
    Option (Except Error (List (Option BoxTerm)) × BindingsDocument) :=
  match doc.results.bindings with
  | [] => none
  | row :: rest => some (popBindingLoop V doc.head.vars row, ⟨doc.head, ⟨rest⟩⟩)

/-- Decode each remaining row against a fixed head, in order. -/
def drainRows (V : Validity) (vars : List String) :
    List (List (String × Term)) → List (Except Error (List (Option BoxTerm)))
  | [] => []
  | row :: rest => popBindingLoop V vars row :: drainRows V vars rest

/-- Full iteration of the `Bindings` iterator: the list of items produced by
calling `next` until it yields nothing. The lemmas `drain_of_next_none` and
`drain_of_next_some` below show that this is exactly the unfolding of
`next`. -/
def drain (V : Validity) (doc : BindingsDocument) :
    List (Except Error (List (Option BoxTerm))) :=
  drainRows V doc.head.vars doc.results.bindings

/-- Association-list lookup, the read-only counterpart of `HashMap` access
(used only in statements, never by the embedded code). -/
def lookupKey (k : String) : List (String × Term) → Option Term
  | [] => none
  | (k2, t2) :: rest => if k2 = k then some t2 else lookupKey k rest

/-- Embeds `SparqlBindings::variables` (lib.rs lines 156-164); named
`variablesOf` because `variables` is reserved. -/
def variablesOf (doc : BindingsDocument) : List String :=
  doc.head.vars

/-! ## Protocol client dispatch (lib.rs lines 50-153) -/

/-- Embeds the `SparqlClient` configuration state (lib.rs lines 50-54); the
`ureq::Agent` transport is external and carries no decision made here. -/
structure SparqlClient where
  endpoint : String
  accept : Option String
deriving Repr, DecidableEq

/-- Embeds `SparqlClient::DEFAULT_ACCEPT` (lib.rs line 58), verbatim. -/
def DEFAULT_ACCEPT : String :=
  "application/sparql-results+json,application/sparql-results+xml;q=0.8,text/turtle,application/n-triples;q=0.9,application/rdf+xml;q=0.8"

/-- Embeds `SparqlClient::new` (lib.rs lines 61-67): no accept override. -/
def SparqlClient.mk_new (endpoint : String) : SparqlClient :=
  ⟨endpoint, none⟩

/-- Embeds `SparqlClient::with_accept` (lib.rs lines 80-83). -/
def SparqlClient.with_accept (c : SparqlClient) (accept : String) : SparqlClient :=
  ⟨c.endpoint, some accept⟩

/-- Embeds the method `SparqlClient::accept` (lib.rs lines 86-88): the
configured override, or `DEFAULT_ACCEPT`. -/
def SparqlClient.acceptHeader (c : SparqlClient) : String :=
  c.accept.getD DEFAULT_ACCEPT

/-- The triple serializations whose bodies are delegated to external stream
decoders (lib.rs lines 139-147); the lazy streams themselves are external. -/
inductive TripleFormat where
  | turtle : TripleFormat
  | ntriples : TripleFormat
  | rdfxml : TripleFormat
deriving Repr, DecidableEq

/-- Embeds `sophia::sparql::SparqlResult` as produced by `query`. -/
inductive SparqlResultM where
  | boolean (b : Bool) : SparqlResultM
  | bindings (doc : BindingsDocument) : SparqlResultM
  | triples (fmt : TripleFormat) : SparqlResultM
deriving Repr, DecidableEq

/-- Outcome of the dispatch part of `query`: a returned `Ok` value, a
returned `Err` value, or a panic (`todo!` unwinds instead of returning). -/
inductive QueryOutcome where
  | ok (r : SparqlResultM) : QueryOutcome
  | err (e : Error) : QueryOutcome
  | panicked (msg : String) : QueryOutcome
deriving Repr, DecidableEq

/-- Recognizer for the `err` outcome. -/
def QueryOutcome.isErr : QueryOutcome → Bool
  | .err _ => true
  | _ => false

/-- The placeholder message of the serde decode failure wrapped by
`resp.into_json` into an i/o error (its exact text is produced by serde and
carries no decision). -/
def serdeFailure : String := "Failed to read JSON"

/-- Embeds the dispatch in `SparqlDataset::query` (lib.rs lines 130-152):
after a successful HTTP exchange, match on the response content type.
JSON results are decoded as a `ResultsDocument` (a decode failure becomes an
`Io` error via `?`); XML results hit `todo!` and panic; the three triple
serializations return a lazy delegated stream; anything else is an
`Unsupported` error naming the content type. -/
def queryDispatch (contentType : String) (body : Json) : QueryOutcome :=
  if contentType = "application/sparql-results+json" then
    match decodeResultsDocument body with
    | some (.Boolean _ b) => .ok (.boolean b)
    | some (.Bindings doc) => .ok (.bindings doc)
    | none => .err (.Io serdeFailure)
  else if contentType = "application/sparql-results+xml" then
    .panicked "not yet implemented: XML bindings not supported yet"
  else if contentType = "text/turtle" then
    .ok (.triples .turtle)
  else if contentType = "application/n-triples" then
    .ok (.triples .ntriples)
  else if contentType = "application/rdf+xml" then
    .ok (.triples .rdfxml)
  else
    .err (.Unsupported ("unsupported content-type: " ++ contentType))

/-! ## Accept-header weights (lib.rs line 58)

The default Accept header is a comma-separated list of media ranges, each
optionally carrying an RFC 7231 quality weight `;q=...` (default 1). -/

/-- Split a character list at every occurrence of a separator character. -/
def splitOnChar (c : Char) : List Char → List (List Char)
  | [] => [[]]
  | a :: rest =>
    if a = c then [] :: splitOnChar c rest
    else
      match splitOnChar c rest with
      | [] => [[a]]
      | grp :: grps => (a :: grp) :: grps

/-- Split a media range at its `;q=` parameter, when present. -/
def splitQ : List Char → List Char × Option (List Char)
  | [] => ([], none)
  | ';' :: 'q' :: '=' :: rest => ([], some rest)
  | a :: rest =>
    let r := splitQ rest
    (a :: r.1, r.2)

/-- Numeric value of a decimal digit character. -/
def digitVal (c : Char) : Nat := c.toNat - 48

/-- Modelled from the spec: an RFC 7231 quality value read in tenths
(one decimal digit of precision; `q` defaults to 1, i.e. 10 tenths, and
`0.8` reads as 8). -/
def qTenths (cs : List Char) : Nat :=
  match cs with
  | [i] => 10 * digitVal i
  | i :: '.' :: f :: _ => 10 * digitVal i + digitVal f
  | _ => 0

/-- Modelled from the spec: parse an Accept header into its ordered list of
media types with their quality weights in tenths. -/
def parseAccept (s : String) : List (String × Nat) :=
  (splitOnChar ',' s.toList).map fun item =>
    match splitQ item with
    | (mt, none) => (String.mk mt, 10)
    | (mt, some q) => (String.mk mt, qTenths q)

/-- The five media types recognized by the dispatch of `query`, in the order
of its match arms (lib.rs lines 131-147). -/
def supportedContentTypes : List String :=
  ["application/sparql-results+json", "application/sparql-results+xml",
   "text/turtle", "application/n-triples", "application/rdf+xml"]

/-! ## Helper lemmas -/

/-- Inversion of `Except.map` at a successful value. -/
theorem exceptMap_ok {ε α β : Type} (e : Except ε α) (f : α → β) (b : β)
    (h : e.map f = .ok b) : ∃ a, e = .ok a ∧ b = f a := by
  cases e with
  | error err => simp [Except.map] at h
  | ok a =>
    simp [Except.map] at h
    exact ⟨a, rfl, h.symm⟩

/-- The value slot returned by `removeKey` is the association-list lookup. -/
theorem removeKey_fst (k : String) (hm : List (String × Term)) :
    (removeKey k hm).1 = lookupKey k hm := by
  induction hm with
  | nil => rfl
  | cons kv rest ih =>
    obtain ⟨k2, t2⟩ := kv
    by_cases h : k2 = k <;> simp [removeKey, lookupKey, h, ih]

/-- Removing an absent key leaves the map unchanged. -/
theorem removeKey_of_lookup_none (k : String) (hm : List (String × Term))
    (h : lookupKey k hm = none) : removeKey k hm = (none, hm) := by
  induction hm with
  | nil => rfl
  | cons kv rest ih =>
    obtain ⟨k2, t2⟩ := kv
    by_cases hk : k2 = k
    · simp [lookupKey, hk] at h
    · simp [lookupKey, hk] at h
      simp [removeKey, hk, ih h]

/-- The residual map of `removeKey` is a sublist of the original map. -/
theorem removeKey_sublist (k : String) (hm : List (String × Term)) :
    (removeKey k hm).2.Sublist hm := by
  induction hm with
  | nil => simp [removeKey]
  | cons kv rest ih =>
    obtain ⟨k2, t2⟩ := kv
    by_cases h : k2 = k
    · simp [removeKey, h]
    · simpa [removeKey, h] using ih.cons₂ (k2, t2)

/-- A key is absent exactly when it is not among the map keys. -/
theorem lookupKey_eq_none_iff (x : String) (hm : List (String × Term)) :
    lookupKey x hm = none ↔ x ∉ hm.map Prod.fst := by
  induction hm with
  | nil => simp [lookupKey]
  | cons kv rest ih =>
    obtain ⟨k2, t2⟩ := kv
    by_cases h : k2 = x
    · simp [lookupKey, h]
    · simp [lookupKey, h, ih]
      intro _ hh
      exact h hh.symm

/-- A successful lookup names an entry of the map. -/
theorem lookupKey_mem (x : String) (hm : List (String × Term)) (t : Term)
    (h : lookupKey x hm = some t) : (x, t) ∈ hm := by
  induction hm with
  | nil => simp [lookupKey] at h
  | cons kv rest ih =>
    obtain ⟨k2, t2⟩ := kv
    by_cases hk : k2 = x
    · subst hk
      simp [lookupKey] at h
      simp [h]
    · simp [lookupKey, hk] at h
      exact List.mem_cons_of_mem _ (ih h)

/-- Absence of a key survives the removal of any key. -/
theorem lookupKey_removeKey_of_none (k x : String) (hm : List (String × Term))
    (h : lookupKey x hm = none) : lookupKey x (removeKey k hm).2 = none := by
  rw [lookupKey_eq_none_iff] at h ⊢
  intro hmem
  exact h (((removeKey_sublist k hm).map Prod.fst).subset hmem)

/-- Removing one key leaves the lookup of every other key unchanged. -/
theorem lookupKey_removeKey_ne (k x : String) (hm : List (String × Term))
    (h : x ≠ k) : lookupKey x (removeKey k hm).2 = lookupKey x hm := by
  induction hm with
  | nil => rfl
  | cons kv rest ih =>
    obtain ⟨k2, t2⟩ := kv
    by_cases hk : k2 = k
    · subst hk
      have hne : ¬k2 = x := fun hh => h hh.symm
      simp only [removeKey, if_pos rfl]
      simp [lookupKey, hne]
    · simp only [removeKey, if_neg hk]
      by_cases hx : k2 = x
      · simp [lookupKey, hx]
      · simp [lookupKey, hx, ih]

/-- On a map with distinct keys, the removed key is gone from the residue. -/
theorem lookupKey_removeKey_self (k : String) (hm : List (String × Term))
    (hnd : nodupKeys hm) : lookupKey k (removeKey k hm).2 = none := by
  induction hm with
  | nil => rfl
  | cons kv rest ih =>
    obtain ⟨k2, t2⟩ := kv
    rw [nodupKeys] at hnd
    simp only [List.map_cons, List.nodup_cons] at hnd
    by_cases hk : k2 = k
    · subst hk
      simp only [removeKey, if_pos rfl]
      rw [lookupKey_eq_none_iff]
      exact hnd.1
    · simp only [removeKey, if_neg hk]
      simp only [lookupKey, if_neg hk]
      exact ih hnd.2

/-- Distinctness of keys survives `removeKey`. -/
theorem nodupKeys_removeKey (k : String) (hm : List (String × Term))
    (hnd : nodupKeys hm) : nodupKeys (removeKey k hm).2 :=
  hnd.sublist ((removeKey_sublist k hm).map Prod.fst)

/-- Unfolding of `popBindingLoop` when the variable is absent from the row. -/
theorem popBindingLoop_cons_none (V : Validity) (key : String) (rest : List String)
    (hm hm2 : List (String × Term)) (hr : removeKey key hm = (none, hm2)) :
    popBindingLoop V (key :: rest) hm =
      (popBindingLoop V rest hm2).map fun v => none :: v := by
  simp only [popBindingLoop]
  rw [hr]

/-- Unfolding of `popBindingLoop` when the variable is bound to a term whose
adaptation fails. -/
theorem popBindingLoop_cons_err (V : Validity) (key : String) (rest : List String)
    (hm hm2 : List (String × Term)) (t : Term) (e : Error)
    (hr : removeKey key hm = (some t, hm2)) (ht : tryFrom V t = .error e) :
    popBindingLoop V (key :: rest) hm = .error e := by
  simp only [popBindingLoop]
  rw [hr]
  simp only []
  rw [ht]

/-- Unfolding of `popBindingLoop` when the variable is bound to a term that
adapts successfully. -/
theorem popBindingLoop_cons_ok (V : Validity) (key : String) (rest : List String)
    (hm hm2 : List (String × Term)) (t : Term) (bt : BoxTerm)
    (hr : removeKey key hm = (some t, hm2)) (ht : tryFrom V t = .ok bt) :
    popBindingLoop V (key :: rest) hm =
      (popBindingLoop V rest hm2).map fun v => some bt :: v := by
  simp only [popBindingLoop]
  rw [hr]
  simp only []
  rw [ht]

/-- A produced row always has one position per head variable. -/
theorem popBindingLoop_length (V : Validity) :
    ∀ (vars : List String) (hm : List (String × Term)) (v : List (Option BoxTerm)),
      popBindingLoop V vars hm = .ok v → v.length = vars.length := by
  intro vars
  induction vars with
  | nil =>
    intro hm v h
    simp only [popBindingLoop] at h
    cases h
    rfl
  | cons key rest ih =>
    intro hm v h
    rcases hr : removeKey key hm with ⟨found, hm2⟩
    cases found with
    | none =>
      rw [popBindingLoop_cons_none V key rest hm hm2 hr] at h
      obtain ⟨v2, hv2, hv⟩ := exceptMap_ok _ _ _ h
      subst hv
      simp [ih hm2 v2 hv2]
    | some t =>
      cases ht : tryFrom V t with
      | error e =>
        rw [popBindingLoop_cons_err V key rest hm hm2 t e hr ht] at h
        cases h
      | ok bt =>
        rw [popBindingLoop_cons_ok V key rest hm hm2 t bt hr ht] at h
        obtain ⟨v2, hv2, hv⟩ := exceptMap_ok _ _ _ h
        subst hv
        simp [ih hm2 v2 hv2]

/-- A head variable without an entry in the row map produces `none` at its
position (for every occurrence of that variable, bound or not elsewhere). -/
theorem popBindingLoop_absent (V : Validity) :
    ∀ (vars : List String) (hm : List (String × Term)) (i : Nat) (x : String)
      (v : List (Option BoxTerm)),
      vars.get? i = some x → lookupKey x hm = none →
      popBindingLoop V vars hm = .ok v → v.get? i = some none := by
  intro vars
  induction vars with
  | nil =>
    intro hm i x v hv _ _
    simp at hv
  | cons key rest ih =>
    intro hm i x v hv habs hok
    rcases hr : removeKey key hm with ⟨found, hm2⟩
    cases i with
    | zero =>
      simp only [List.get?_cons_zero, Option.some.injEq] at hv
      subst hv
      have hr0 : removeKey key hm = (none, hm) := removeKey_of_lookup_none key hm habs
      rw [popBindingLoop_cons_none V key rest hm hm hr0] at hok
      obtain ⟨v2, hv2, hveq⟩ := exceptMap_ok _ _ _ hok
      subst hveq
      rfl
    | succ n =>
      simp only [List.get?_cons_succ] at hv
      have habs2 : lookupKey x hm2 = none := by
        have := lookupKey_removeKey_of_none key x hm habs
        rw [hr] at this
        exact this
      cases found with
      | none =>
        rw [popBindingLoop_cons_none V key rest hm hm2 hr] at hok
        obtain ⟨v2, hv2, hveq⟩ := exceptMap_ok _ _ _ hok
        subst hveq
        simpa using ih hm2 n x v2 hv habs2 hv2
      | some t =>
        cases ht : tryFrom V t with
        | error e =>
          rw [popBindingLoop_cons_err V key rest hm hm2 t e hr ht] at hok
          cases hok
        | ok bt =>
          rw [popBindingLoop_cons_ok V key rest hm hm2 t bt hr ht] at hok
          obtain ⟨v2, hv2, hveq⟩ := exceptMap_ok _ _ _ hok
          subst hveq
          simpa using ih hm2 n x v2 hv habs2 hv2

/-- When every term of the row adapts successfully, the row decodes
successfully. -/
theorem popBindingLoop_total (V : Validity) :
    ∀ (vars : List String) (hm : List (String × Term)),
      (∀ kv ∈ hm, (tryFrom V kv.2).toOption.isSome = true) →
      ∃ v, popBindingLoop V vars hm = .ok v := by
  intro vars
  induction vars with
  | nil =>
    intro hm _
    exact ⟨[], rfl⟩
  | cons key rest ih =>
    intro hm hall
    have hsub : ∀ kv ∈ (removeKey key hm).2, kv ∈ hm :=
      fun kv hkv => (removeKey_sublist key hm).subset hkv
    rcases hr : removeKey key hm with ⟨found, hm2⟩
    have hall2 : ∀ kv ∈ hm2, (tryFrom V kv.2).toOption.isSome = true := by
      intro kv hkv
      apply hall
      apply hsub
      rw [hr]
      exact hkv
    cases found with
    | none =>
      obtain ⟨v2, hv2⟩ := ih hm2 hall2
      refine ⟨none :: v2, ?_⟩
      rw [popBindingLoop_cons_none V key rest hm hm2 hr, hv2]
      rfl
    | some t =>
      have hmem : (key, t) ∈ hm := by
        apply lookupKey_mem
        rw [← removeKey_fst, hr]
      have hok := hall (key, t) hmem
      rcases ht : tryFrom V t with e | bt
      · rw [ht] at hok
        simp [Except.toOption] at hok
      · obtain ⟨v2, hv2⟩ := ih hm2 hall2
        refine ⟨some bt :: v2, ?_⟩
        rw [popBindingLoop_cons_ok V key rest hm hm2 t bt hr ht, hv2]
        rfl

/-- On a duplicate-free head, a produced row holds at position `i` exactly
the adapted binding of the `i`-th head variable: the residual-map state of
the loop is invisible. -/
theorem popBindingLoop_nodup_get (V : Validity) :
    ∀ (vars : List String) (hm : List (String × Term)) (v : List (Option BoxTerm)),
      vars.Nodup → popBindingLoop V vars hm = .ok v →
      ∀ (i : Nat) (x : String), vars.get? i = some x →
        v.get? i = some ((lookupKey x hm).bind fun t => (tryFrom V t).toOption) := by
  intro vars
  induction vars with
  | nil =>
    intro hm v _ _ i x hx
    simp at hx
  | cons key rest ih =>
    intro hm v hnd hok i x hx
    rw [List.nodup_cons] at hnd
    rcases hr : removeKey key hm with ⟨found, hm2⟩
    have hfst : lookupKey key hm = found := by
      rw [← removeKey_fst, hr]
    cases i with
    | zero =>
      simp only [List.get?_cons_zero, Option.some.injEq] at hx
      subst hx
      cases found with
      | none =>
        rw [popBindingLoop_cons_none V key rest hm hm2 hr] at hok
        obtain ⟨v2, _, hveq⟩ := exceptMap_ok _ _ _ hok
        subst hveq
        simp [hfst]
      | some t =>
        cases ht : tryFrom V t with
        | error e =>
          rw [popBindingLoop_cons_err V key rest hm hm2 t e hr ht] at hok
          cases hok
        | ok bt =>
          rw [popBindingLoop_cons_ok V key rest hm hm2 t bt hr ht] at hok
          obtain ⟨v2, _, hveq⟩ := exceptMap_ok _ _ _ hok
          subst hveq
          simp [hfst, ht, Except.toOption]
    | succ n =>
      simp only [List.get?_cons_succ] at hx
      have hxmem : x ∈ rest := List.get?_mem hx
      have hne : x ≠ key := fun hh => hnd.1 (hh ▸ hxmem)
      have hlook : lookupKey x hm2 = lookupKey x hm := by
        have := lookupKey_removeKey_ne key x hm hne
        rw [hr] at this
        exact this
      cases found with
      | none =>
        rw [popBindingLoop_cons_none V key rest hm hm2 hr] at hok
        obtain ⟨v2, hv2, hveq⟩ := exceptMap_ok _ _ _ hok
        subst hveq
        simpa [hlook] using ih hm2 v2 hnd.2 hv2 n x hx
      | some t =>
        cases ht : tryFrom V t with
        | error e =>
          rw [popBindingLoop_cons_err V key rest hm hm2 t e hr ht] at hok
          cases hok
        | ok bt =>
          rw [popBindingLoop_cons_ok V key rest hm hm2 t bt hr ht] at hok
          obtain ⟨v2, hv2, hveq⟩ := exceptMap_ok _ _ _ hok
          subst hveq
          simpa [hlook] using ih hm2 v2 hnd.2 hv2 n x hx

/-- When a head variable repeats, every occurrence after the first produces
`none`, because the first occurrence removed the entry from the row map. -/
theorem popBindingLoop_dup_none (V : Validity) :
    ∀ (vars : List String) (hm : List (String × Term)) (v : List (Option BoxTerm))
      (i j : Nat) (x : String),
      i < j → vars.get? i = some x → vars.get? j = some x →
      nodupKeys hm → popBindingLoop V vars hm = .ok v →
      v.get? j = some none := by
  intro vars
  induction vars with
  | nil =>
    intro hm v i j x _ hi _ _ _
    simp at hi
  | cons key rest ih =>
    intro hm v i j x hij hi hj hnd hok
    rcases hr : removeKey key hm with ⟨found, hm2⟩
    have hgone : lookupKey key hm2 = none := by
      have := lookupKey_removeKey_self key hm hnd
      rw [hr] at this
      exact this
    have hnd2 : nodupKeys hm2 := by
      have := nodupKeys_removeKey key hm hnd
      rw [hr] at this
      exact this
    cases j with
    | zero => exact absurd hij (Nat.not_lt_zero i)
    | succ m =>
      simp only [List.get?_cons_succ] at hj
      cases i with
      | zero =>
        simp only [List.get?_cons_zero, Option.some.injEq] at hi
        subst hi
        cases found with
        | none =>
          rw [popBindingLoop_cons_none V key rest hm hm2 hr] at hok
          obtain ⟨v2, hv2, hveq⟩ := exceptMap_ok _ _ _ hok
          subst hveq
          simpa using popBindingLoop_absent V rest hm2 m key v2 hj hgone hv2
        | some t =>
          cases ht : tryFrom V t with
          | error e =>
            rw [popBindingLoop_cons_err V key rest hm hm2 t e hr ht] at hok
            cases hok
          | ok bt =>
            rw [popBindingLoop_cons_ok V key rest hm hm2 t bt hr ht] at hok
            obtain ⟨v2, hv2, hveq⟩ := exceptMap_ok _ _ _ hok
            subst hveq
            simpa using popBindingLoop_absent V rest hm2 m key v2 hj hgone hv2
      | succ p =>
        simp only [List.get?_cons_succ] at hi
        have hpm : p < m := Nat.lt_of_succ_lt_succ hij
        cases found with
        | none =>
          rw [popBindingLoop_cons_none V key rest hm hm2 hr] at hok
          obtain ⟨v2, hv2, hveq⟩ := exceptMap_ok _ _ _ hok
          subst hveq
          simpa using ih hm2 v2 p m x hpm hi hj hnd2 hv2
        | some t =>
          cases ht : tryFrom V t with
          | error e =>
            rw [popBindingLoop_cons_err V key rest hm hm2 t e hr ht] at hok
            cases hok
          | ok bt =>
            rw [popBindingLoop_cons_ok V key rest hm hm2 t bt hr ht] at hok
            obtain ⟨v2, hv2, hveq⟩ := exceptMap_ok _ _ _ hok
            subst hveq
            simpa using ih hm2 v2 p m x hpm hi hj hnd2 hv2

/-- The structural iteration is a map over the remaining rows. -/
theorem drainRows_eq_map (V : Validity) (vars : List String) :
    ∀ rows, drainRows V vars rows = rows.map (popBindingLoop V vars) := by
  intro rows
  induction rows with
  | nil => rfl
  | cons row rest ih => simp [drainRows, ih]

/-- Full iteration decodes exactly the document rows, in order. -/
theorem drain_eq_map (V : Validity) (doc : BindingsDocument) :
    drain V doc = doc.results.bindings.map (popBindingLoop V doc.head.vars) := by
  rw [drain, drainRows_eq_map]

/-- Fidelity of `drain` to the iterator, exhausted case: when `next` signals
the end, the full iteration is empty. -/
theorem drain_of_next_none (V : Validity) (doc : BindingsDocument)
    (h : next V doc = none) : drain V doc = [] := by
  obtain ⟨head, ⟨rows⟩⟩ := doc
  cases rows with
  | nil => rfl
  | cons row rest => simp [next] at h

/-- Fidelity of `drain` to the iterator, producing case: when `next` yields
an item and a successor state, the full iteration is that item followed by
the full iteration of the successor. -/
theorem drain_of_next_some (V : Validity) (doc doc2 : BindingsDocument)
    (item : Except Error (List (Option BoxTerm)))
    (h : next V doc = some (item, doc2)) :
    drain V doc = item :: drain V doc2 := by
  obtain ⟨head, ⟨rows⟩⟩ := doc
  cases rows with
  | nil => simp [next] at h
  | cons row rest =>
    simp only [next, Option.some.injEq, Prod.mk.injEq] at h
    rw [← h.2, ← h.1]
    rfl

/-- Unfolding of `queryDispatch` on the JSON bindings content type. -/
theorem queryDispatch_json (body : Json) :
    queryDispatch "application/sparql-results+json" body
      = match decodeResultsDocument body with
        | some (.Boolean _ b) => .ok (.boolean b)
        | some (.Bindings doc) => .ok (.bindings doc)
        | none => .err (.Io serdeFailure) := rfl

/-! ## Claim theorems -/

/-- C1: for every decoded `BindingsDocument` whose head has `n` variables and
whose results hold `k` binding rows (every bound term adapting successfully,
the validity of the document), fully iterating the bindings sequence yields
exactly `k` items, the `j`-th item produced from the `j`-th row of the
response, and each item a vector of exactly `n` positions, each position
`some term` or `none`. -/
theorem bindings_sequence_yields_all_rows_in_order (V : Validity)
    (doc : BindingsDocument)
    (hall : ∀ row ∈ doc.results.bindings, ∀ kv ∈ row,
      (tryFrom V kv.2).toOption.isSome = true) :
    (drain V doc).length = doc.results.bindings.length ∧
    ∀ (j : Nat) (row : List (String × Term)),
      doc.results.bindings.get? j = some row →
      ∃ v, (drain V doc).get? j = some (.ok v) ∧
        popBindingLoop V doc.head.vars row = .ok v ∧
        v.length = doc.head.vars.length := by
  constructor
  · rw [drain_eq_map]
    simp
  · intro j row hrow
    have hmem : row ∈ doc.results.bindings := List.get?_mem hrow
    obtain ⟨v, hv⟩ := popBindingLoop_total V doc.head.vars row (hall row hmem)
    refine ⟨v, ?_, hv, popBindingLoop_length V _ _ _ hv⟩
    rw [drain_eq_map, List.get?_map, hrow]
    simp [hv]

/-- Witness for C1 on a one-row document over head `[answer]`. -/
theorem bindings_sequence_yields_all_rows_in_order_witness :
    (drain allValid ⟨⟨["answer"], []⟩, ⟨[[("answer",
      Term.Literal (Literal.Datatype "42"
        "http://www.w3.org/2001/XMLSchema#integer"))]]⟩⟩).length = 1 :=
  (bindings_sequence_yields_all_rows_in_order allValid
    ⟨⟨["answer"], []⟩, ⟨[[("answer", Term.Literal (Literal.Datatype "42"
      "http://www.w3.org/2001/XMLSchema#integer"))]]⟩⟩ (by decide)).1

/-- C2 counterexample: a JSON body with a top-level `boolean` field but no
`head` field does not decode as a Boolean result; the query fails with the
structural-decode error instead, because the untagged `Boolean` variant
requires its `head` field. -/
theorem json_boolean_without_head_fails :
    queryDispatch "application/sparql-results+json"
        (Json.obj [("boolean", Json.bool true)])
      = QueryOutcome.err (Error.Io serdeFailure) := rfl

/-- C2 amended: for a response declared `application/sparql-results+json`,
a JSON object whose `head` field decodes as a generic head and whose
`boolean` field holds a JSON boolean decodes as that Boolean result; failing
that, an object whose `head` decodes as a bindings head (with `vars`) and
whose `results` decodes as result rows decodes as that `BindingsDocument`;
when neither shape matches, `query` returns the structural-decode error. -/
theorem json_dispatch_by_shape (fs : List (String × Json)) :
    (∀ (hj : Json) (h : BooleanHead) (b : Bool),
      getField fs "head" = some hj → decodeBooleanHead hj = some h →
      asBool (getField fs "boolean") = some b →
      queryDispatch "application/sparql-results+json" (.obj fs)
        = .ok (.boolean b)) ∧
    (∀ (hj rj : Json) (hd : BindingsHead) (rs : Results),
      decodeBooleanVariant (.obj fs) = none →
      getField fs "head" = some hj → decodeBindingsHead hj = some hd →
      getField fs "results" = some rj → decodeResults rj = some rs →
      queryDispatch "application/sparql-results+json" (.obj fs)
        = .ok (.bindings ⟨hd, rs⟩)) ∧
    (decodeBooleanVariant (.obj fs) = none →
      decodeBindingsVariant (.obj fs) = none →
      queryDispatch "application/sparql-results+json" (.obj fs)
        = .err (.Io serdeFailure)) := by
  refine ⟨?_, ?_, ?_⟩
  · intro hj h b h1 h2 h3
    have hbv : decodeBooleanVariant (.obj fs) = some (.Boolean h b) := by
      simp [decodeBooleanVariant, h1, h2, h3]
    have hdd : decodeResultsDocument (.obj fs) = some (.Boolean h b) := by
      simp only [decodeResultsDocument]
      rw [hbv]
    rw [queryDispatch_json, hdd]
  · intro hj rj hd rs hB h1 h2 h3 h4
    have hbv : decodeBindingsVariant (.obj fs) = some (.Bindings ⟨hd, rs⟩) := by
      simp [decodeBindingsVariant, h1, h2, h3, h4]
    have hdd : decodeResultsDocument (.obj fs) = some (.Bindings ⟨hd, rs⟩) := by
      simp only [decodeResultsDocument]
      rw [hB]
      exact hbv
    rw [queryDispatch_json, hdd]
  · intro hB hBd
    have hdd : decodeResultsDocument (.obj fs) = none := by
      simp only [decodeResultsDocument]
      rw [hB]
      exact hBd
    rw [queryDispatch_json, hdd]

/-- Witness for C2 on the Boolean shape. -/
theorem json_dispatch_by_shape_witness :
    queryDispatch "application/sparql-results+json"
        (Json.obj [("head", Json.obj []), ("boolean", Json.bool true)])
      = QueryOutcome.ok (SparqlResultM.boolean true) :=
  (json_dispatch_by_shape [("head", Json.obj []), ("boolean", Json.bool true)]).1
    (Json.obj []) ⟨[]⟩ true rfl rfl rfl

/-- C3 counterexample: on content type `application/sparql-results+xml` the
call does not return an error value to the caller; it panics (`todo!`). -/
theorem xml_panics_not_an_error :
    queryDispatch "application/sparql-results+xml" (Json.obj [])
        = QueryOutcome.panicked "not yet implemented: XML bindings not supported yet"
      ∧ (queryDispatch "application/sparql-results+xml" (Json.obj [])).isErr
        = false :=
  ⟨rfl, rfl⟩

/-- C3 amended: for every response declared `application/sparql-results+xml`,
regardless of the body, the query call halts immediately by panicking with
the `todo!` message — a hard stop that is not a returned error value, and
never a silent fallback to another decoder. -/
theorem xml_content_type_always_panics (body : Json) :
    queryDispatch "application/sparql-results+xml" body
        = QueryOutcome.panicked "not yet implemented: XML bindings not supported yet"
      ∧ (queryDispatch "application/sparql-results+xml" body).isErr = false :=
  ⟨rfl, rfl⟩

/-- C4: a wire term record of type literal resolves its subtype by priority:
a present `datatype` field wins (even when `xml:lang` is also present), then
a present `xml:lang` field, and with neither the literal is simple. -/
theorem literal_subtype_priority (value dt lang : String) :
    decodeTerm (.obj [("type", .str "literal"), ("value", .str value),
        ("datatype", .str dt), ("xml:lang", .str lang)])
      = some (.Literal (.Datatype value dt)) ∧
    decodeTerm (.obj [("type", .str "literal"), ("value", .str value),
        ("datatype", .str dt)])
      = some (.Literal (.Datatype value dt)) ∧
    decodeTerm (.obj [("type", .str "literal"), ("value", .str value),
        ("xml:lang", .str lang)])
      = some (.Literal (.Lang value lang)) ∧
    decodeTerm (.obj [("type", .str "literal"), ("value", .str value)])
      = some (.Literal (.Simple value)) :=
  ⟨rfl, rfl, rfl, rfl⟩

/-- C5: a head variable with no entry in the row map yields `none` at its
position, and that position is distinguishable from every bound value
(including a literal with empty lexical form, which would show as
`some (some term)`). -/
theorem unbound_variable_decodes_none (V : Validity) (vars : List String)
    (hm : List (String × Term)) (i : Nat) (x : String)
    (v : List (Option BoxTerm))
    (hvar : vars.get? i = some x) (habs : lookupKey x hm = none)
    (hok : popBindingLoop V vars hm = .ok v) :
    v.get? i = some none ∧ ∀ t : BoxTerm, v.get? i ≠ some (some t) := by
  have h := popBindingLoop_absent V vars hm i x v hvar habs hok
  refine ⟨h, fun t hc => ?_⟩
  rw [h] at hc
  simp at hc

/-- Witness for C5: variable `x` absent from a row that binds only `y` to an
empty-string literal. -/
theorem unbound_variable_decodes_none_witness :
    ([none, some (BoxTerm.LiteralDT "" xsdString)] : List (Option BoxTerm)).get? 0
      = some none :=
  (unbound_variable_decodes_none allValid ["x", "y"]
    [("y", Term.Literal (Literal.Simple ""))] 0 "x"
    [none, some (BoxTerm.LiteralDT "" xsdString)] rfl rfl rfl).1

/-- C6: a wire literal record with neither `datatype` nor `xml:lang` decodes
(through the `Simple` subtype) to a datatype-tagged generic literal whose
datatype IRI is exactly `xsd:string` and whose lexical form is the record
value, for every validity notion of the term toolkit. -/
theorem simple_literal_gets_xsd_string (V : Validity) (value : String) :
    decodeTerm (.obj [("type", .str "literal"), ("value", .str value)])
      = some (.Literal (.Simple value)) ∧
    tryFrom V (.Literal (.Simple value)) = .ok (.LiteralDT value xsdString) :=
  ⟨rfl, rfl⟩

/-- C7: the `j`-th item of the full iteration is exactly the decode of the
`j`-th response row: a malformed term in row `i` surfaces as an error only
at position `i`, rows delivered before it are unaffected, and iteration
still produces one item per row. -/
theorem row_decode_errors_are_local (V : Validity) (doc : BindingsDocument) :
    (drain V doc).length = doc.results.bindings.length ∧
    ∀ j : Nat, (drain V doc).get? j
      = (doc.results.bindings.get? j).map (popBindingLoop V doc.head.vars) := by
  rw [drain_eq_map]
  exact ⟨by simp, fun j => by rw [List.get?_map]⟩

/-- C8 counterexample: in the default Accept header the quality weight of
XML bindings (0.8) does not dominate that of Turtle (1.0), refuting the
claimed weight order JSON > XML > Turtle > N-Triples > RDF/XML. -/
theorem default_accept_weight_order_refuted :
    (parseAccept DEFAULT_ACCEPT).get? 1
        = some ("application/sparql-results+xml", 8) ∧
    (parseAccept DEFAULT_ACCEPT).get? 2 = some ("text/turtle", 10) ∧
    ¬ (8 : Nat) ≥ 10 :=
  ⟨rfl, rfl, by decide⟩

/-- C8 amended: the default Accept header (used whenever no override is
configured) is a fixed list covering exactly the five supported media types,
textually ordered JSON bindings, XML bindings, Turtle, N-Triples, RDF/XML,
with quality weights 1.0, 0.8, 1.0, 0.9, 0.8 respectively (so by weight JSON
bindings and Turtle come first, then N-Triples, then XML bindings and
RDF/XML). -/
theorem default_accept_weighted_list (endpoint : String) :
    (SparqlClient.mk_new endpoint).acceptHeader = DEFAULT_ACCEPT ∧
    parseAccept DEFAULT_ACCEPT
      = [("application/sparql-results+json", 10),
         ("application/sparql-results+xml", 8),
         ("text/turtle", 10),
         ("application/n-triples", 9),
         ("application/rdf+xml", 8)] ∧
    (parseAccept DEFAULT_ACCEPT).map Prod.fst = supportedContentTypes :=
  ⟨rfl, rfl, rfl⟩

/-- C9 counterexample: a bindings document whose head lists the variable
`a` twice decodes successfully, so a decoded head is not guaranteed
duplicate-free. -/
theorem duplicate_head_variables_decode_ok :
    decodeResultsDocument (Json.obj
        [("head", Json.obj [("vars", Json.arr [Json.str "a", Json.str "a"])]),
         ("results", Json.obj [("bindings", Json.arr [])])])
      = some (.Bindings ⟨⟨["a", "a"], []⟩, ⟨[]⟩⟩) ∧
    ¬ (variablesOf ⟨⟨["a", "a"], []⟩, ⟨[]⟩⟩).Nodup :=
  ⟨rfl, by decide⟩

/-- C9 amended: decoding takes the head's variable sequence as listed
(duplicates are not rejected); the sequence's order still governs the layout
of every produced row: one position per head variable, and — on a
duplicate-free head — position `i` holds exactly the adapted binding of the
`i`-th variable. -/
theorem head_order_governs_row_layout (V : Validity) (vars : List String)
    (hm : List (String × Term)) (v : List (Option BoxTerm))
    (hnd : vars.Nodup) (hok : popBindingLoop V vars hm = .ok v) :
    v.length = vars.length ∧
    ∀ (i : Nat) (x : String), vars.get? i = some x →
      v.get? i = some ((lookupKey x hm).bind fun t => (tryFrom V t).toOption) :=
  ⟨popBindingLoop_length V vars hm v hok,
   fun i x hx => popBindingLoop_nodup_get V vars hm v hnd hok i x hx⟩

/-- Witness for the amended C9 on head `[a, b]` with only `a` bound. -/
theorem head_order_governs_row_layout_witness :
    ([some (BoxTerm.Iri "tag:a"), none] : List (Option BoxTerm)).length = 2 :=
  (head_order_governs_row_layout allValid ["a", "b"] [("a", Term.Uri "tag:a")]
    [some (BoxTerm.Iri "tag:a"), none] (by decide) rfl).1

/-- C10: when the same name occurs at positions `i < j` of the head, the
produced row holds `none` at position `j` even when the row binds that
variable, because the first occurrence removed the entry from the row map. -/
theorem duplicate_head_later_occurrence_none (V : Validity)
    (vars : List String) (hm : List (String × Term)) (v : List (Option BoxTerm))
    (i j : Nat) (x : String)
    (hij : i < j) (hi : vars.get? i = some x) (hj : vars.get? j = some x)
    (hnd : nodupKeys hm) (hok : popBindingLoop V vars hm = .ok v) :
    v.get? j = some none :=
  popBindingLoop_dup_none V vars hm v i j x hij hi hj hnd hok

/-- Witness for C10 on head `[x, x]` with `x` bound. -/
theorem duplicate_head_later_occurrence_none_witness :
    ([some (BoxTerm.Iri "tag:a"), none] : List (Option BoxTerm)).get? 1
      = some none :=
  duplicate_head_later_occurrence_none allValid ["x", "x"]
    [("x", Term.Uri "tag:a")] [some (BoxTerm.Iri "tag:a"), none] 0 1 "x"
    (by decide) rfl rfl (by decide) rfl

end SophiaSparqlClient
